import Mathlib

/-!
Verification of `reminder-sink` (`reminder_sink/__main__.py`).

The program's pure core is shallowly embedded below: Python strings are
Lean `String`s (logically `List Char`), the suppression backing file is an
`Option String` (`none` = the file does not exist, `some c` = the file
exists with contents `c`), Unix timestamps and exit codes are `Int`, and
Python exceptions are surfaced as explicit error values.  Text files are
`'\n'`-separated, matching the POSIX text the program reads and writes.
-/

namespace ReminderSink

/-! ### Python string primitives, modelled over `List Char` -/

/-- Whitespace stripped by Python's `str.strip()` (ASCII range). -/
def pyIsSpace (c : Char) : Bool :=
  c = ' ' ∨ c = '\t' ∨ c = '\n' ∨ c = '\r' ∨ c = '\x0b' ∨ c = '\x0c'

/-- Drop leading and trailing whitespace, as Python's `str.strip()`. -/
def stripChars (cs : List Char) : List Char :=
  ((cs.dropWhile pyIsSpace).reverse.dropWhile pyIsSpace).reverse

/-- Python `s.strip()`. -/
def pyStrip (s : String) : String :=
  String.mk (stripChars s.data)

/-- Character-list prefix test. -/
def isPrefixChars : List Char → List Char → Bool
  | [], _ => true
  | _ :: _, [] => false
  | c :: cs, d :: ds => c = d && isPrefixChars cs ds

/-- Python `s.startswith(p)`. -/
def pyStartsWith (s p : String) : Bool :=
  isPrefixChars p.data s.data

/-- Python `s[n:]` (slicing counts code points). -/
def pyDrop (s : String) (n : Nat) : String :=
  String.mk (s.data.drop n)

/-- Python `s.partition(":")`, reduced to the pair the program uses:
the text before the first `':'` and the text after it.  When `s` has no
`':'` the second component is `""`, exactly as in `match, _, epoch =
line.partition(":")`. -/
def partitionColonChars : List Char → List Char × List Char
  | [] => ([], [])
  | c :: cs =>
    if c = ':' then ([], cs)
    else
      let p := partitionColonChars cs
      (c :: p.1, p.2)

/-- String form of `partitionColonChars`. -/
def pyPartitionColon (s : String) : String × String :=
  let p := partitionColonChars s.data
  (String.mk p.1, String.mk p.2)

/-- Python `s.isnumeric()` restricted to ASCII decimal digits, the only
characters the program ever writes into the epoch field. -/
def pyIsNumeric (s : String) : Bool :=
  !s.data.isEmpty && s.data.all Char.isDigit

/-- Value of a string of decimal digits, as Python `int(s)` computes it
on an `isnumeric` string. -/
def digitsToNat (cs : List Char) : Nat :=
  cs.foldl (fun acc c => 10 * acc + (c.toNat - 48)) 0

/-- Split a character list at every `'\n'`, keeping empty segments
(the semantics of splitting file contents into lines). -/
def splitOnNL : List Char → List (List Char)
  | [] => [[]]
  | c :: cs =>
    if c = '\n' then [] :: splitOnNL cs
    else
      match splitOnNL cs with
      | [] => [[c]]
      | l :: ls => (c :: l) :: ls

/-- The characters at which Python's `str.splitlines()` breaks a line:
`\n`, `\r`, `\v` (`\x0b`), `\f` (`\x0c`), `\x1c`, `\x1d`, `\x1e`,
`\x85`, `\u2028` and `\u2029` — with `"\r\n"` counting as one break. -/
def isLineBoundary (c : Char) : Bool :=
  c = '\n' ∨ c = '\r' ∨ c = '\x0b' ∨ c = '\x0c' ∨ c = '\x1c' ∨
  c = '\x1d' ∨ c = '\x1e' ∨ c = '\x85' ∨ c = '\u2028' ∨ c = '\u2029'

/-- Worker for `str.splitlines()`: `afterCR` records that the previous
character was a `'\r'` that already ended a line, so that an
immediately following `'\n'` completes the same `"\r\n"` break instead
of opening another one. -/
def splitlinesAux : Bool → List Char → List (List Char)
  | _, [] => []
  | afterCR, c :: rest =>
    if afterCR = true ∧ c = '\n' then splitlinesAux false rest
    else if isLineBoundary c then [] :: splitlinesAux (c = '\r') rest
    else
      match splitlinesAux false rest with
      | [] => [[c]]
      | l :: ls => (c :: l) :: ls

/-- Python `str.splitlines()`: break at every line-boundary character
(`"\r\n"` as a single break); a trailing break does not open a final
empty line, and the empty string has no lines. -/
def splitlinesChars (cs : List Char) : List (List Char) :=
  splitlinesAux false cs

/-- Python `s.splitlines()`. -/
def pySplitlines (s : String) : List String :=
  (splitlinesChars s.data).map String.mk

/-- Join character-list lines with `'\n'` (inverse of `splitOnNL`). -/
def joinNLChars : List (List Char) → List Char
  | [] => []
  | [l] => l
  | l :: ls => l ++ '\n' :: joinNLChars ls

/-- The lines of a text file's contents, as Python's line iteration
produces them (terminators removed; a trailing newline contributes a
final empty segment which the program's `strip` immediately discards). -/
def fileLines (contents : String) : List String :=
  (splitOnNL contents.data).map String.mk

/-- The decimal digit character for `k < 10`. -/
def digitChar (k : Nat) : Char :=
  Char.ofNat (48 + k)

/-- Decimal digits of `n`, most significant first; `fuel` bounds the
recursion and any `fuel > n` is sufficient. -/
def natToDigitsAux : Nat → Nat → List Char
  | 0, _ => []
  | fuel + 1, n =>
    if n < 10 then [digitChar n]
    else natToDigitsAux fuel (n / 10) ++ [digitChar (n % 10)]

/-- Decimal digits of `n`. -/
def natToDigits (n : Nat) : List Char :=
  natToDigitsAux (n + 1) n

/-- Python's decimal formatting of an `int`, as used by
`f"{int(time.time() + duration)}"`. -/
def intToDecimal (n : Int) : String :=
  if n < 0 then String.mk ('-' :: natToDigits (-n).toNat)
  else String.mk (natToDigits n.toNat)

/-! ### `fnmatch.fnmatch`: shell-style glob matching

`fnmatch` translates a pattern over `*` (any sequence), `?` (any single
character) and `[...]` character classes (with `!` negation, a literal
leading `]`, and `-` ranges; an unterminated `[` is a literal) and tests
the whole name against it.  On Linux no case folding is applied. -/

/-- Scan for the closing `']'` of a character class, returning the
content before it and the remainder after it; `none` when the class is
unterminated. -/
def findClose : List Char → Option (List Char × List Char)
  | [] => none
  | c :: cs =>
    if c = ']' then some ([], cs)
    else (findClose cs).map fun p => (c :: p.1, p.2)

/-- Split a character class at the position after `[`: per
`fnmatch.translate`, a leading `!` and then a leading `]` belong to the
class content, after which the first `']'` closes it. -/
def splitClass (cs : List Char) : Option (List Char × List Char) :=
  match cs with
  | '!' :: ']' :: rest => (findClose rest).map fun p => ('!' :: ']' :: p.1, p.2)
  | '!' :: rest => (findClose rest).map fun p => ('!' :: p.1, p.2)
  | ']' :: rest => (findClose rest).map fun p => (']' :: p.1, p.2)
  | rest => (findClose rest).map fun p => (p.1, p.2)

/-- Membership of `c` in a class body: `x-y` is a range (empty when
`x > y`), any other character is a literal, a trailing `-` is literal. -/
def classMemb (c : Char) : List Char → Bool
  | x :: '-' :: y :: rest => (x ≤ c ∧ c ≤ y) || classMemb c rest
  | x :: rest => c = x || classMemb c rest
  | [] => false

/-- Match of `c` against a full class content, honouring `!` negation
(whose empty body `[!]` matches every character, as in
`fnmatch.translate`). -/
def classMatches (c : Char) : List Char → Bool
  | '!' :: body => !classMemb c body
  | body => classMemb c body

/-- Glob matching of string `s` against pattern `p`.  `fuel` bounds the
recursion; every step consumes at least one character of `p` or of `s`,
so any `fuel > |p| + |s|` is sufficient and the `0` case is never
reached from `fnmatch` below. -/
def globMatchAux : Nat → List Char → List Char → Bool
  | 0, _, _ => false
  | fuel + 1, p, s =>
    match p, s with
    | [], [] => true
    | [], _ :: _ => false
    | '*' :: ps, s =>
      globMatchAux fuel ps s ||
        match s with
        | [] => false
        | _ :: s' => globMatchAux fuel ('*' :: ps) s'
    | '?' :: ps, s =>
      match s with
      | [] => false
      | _ :: s' => globMatchAux fuel ps s'
    | '[' :: ps, s =>
      match splitClass ps with
      | some (content, rest) =>
        match s with
        | [] => false
        | c :: s' => classMatches c content && globMatchAux fuel rest s'
      | none =>
        match s with
        | [] => false
        | c :: s' => c = '[' && globMatchAux fuel ps s'
    | pc :: ps, s =>
      match s with
      | [] => false
      | c :: s' => c = pc && globMatchAux fuel ps s'

/-- `fnmatch.fnmatch(name, pat)`. -/
def fnmatch (name pat : String) : Bool :=
  globMatchAux (pat.data.length + name.data.length + 1) pat.data name.data

/-! ### `shlex.split`: POSIX shell tokenization

`shlex.split(s)` runs the CPython `shlex` state machine with
`posix=True`, `whitespace_split=True` and comments disabled.  The states
are: between tokens, inside a word, inside `'...'`, inside `"..."`, and
the two escape states (after `\` outside quotes / inside double quotes).
An unterminated quote or a trailing `\` raises `ValueError`, modelled as
`none`. -/

/-- Whitespace recognised by `shlex` (` \t\r\n`). -/
def pyShlexWS (c : Char) : Bool :=
  c = ' ' ∨ c = '\t' ∨ c = '\r' ∨ c = '\n'

/-- States of the `shlex` tokenizer. -/
inductive ShState
  | ground | word | squote | dquote | escGround | escDquote
  deriving Repr, DecidableEq

/-- One pass of the `shlex` state machine over the input.  `cur` is the
token being accumulated, `acc` the tokens already emitted. -/
def shlexAux : List Char → ShState → List Char → List String → Option (List String)
  | [], st, cur, acc =>
    match st with
    | .ground => some acc
    | .word => some (acc ++ [String.mk cur])
    | _ => none
  | c :: rest, st, cur, acc =>
    match st with
    | .ground =>
      if pyShlexWS c then shlexAux rest .ground [] acc
      else if c = '\'' then shlexAux rest .squote cur acc
      else if c = '"' then shlexAux rest .dquote cur acc
      else if c = '\\' then shlexAux rest .escGround cur acc
      else shlexAux rest .word (cur ++ [c]) acc
    | .word =>
      if pyShlexWS c then shlexAux rest .ground [] (acc ++ [String.mk cur])
      else if c = '\'' then shlexAux rest .squote cur acc
      else if c = '"' then shlexAux rest .dquote cur acc
      else if c = '\\' then shlexAux rest .escGround cur acc
      else shlexAux rest .word (cur ++ [c]) acc
    | .squote =>
      if c = '\'' then shlexAux rest .word cur acc
      else shlexAux rest .squote (cur ++ [c]) acc
    | .dquote =>
      if c = '"' then shlexAux rest .word cur acc
      else if c = '\\' then shlexAux rest .escDquote cur acc
      else shlexAux rest .dquote (cur ++ [c]) acc
    | .escGround => shlexAux rest .word (cur ++ [c]) acc
    | .escDquote =>
      if c = '"' ∨ c = '\\' then shlexAux rest .dquote (cur ++ [c]) acc
      else shlexAux rest .dquote (cur ++ ['\\', c]) acc

/-- `shlex.split(s)`; `none` models the `ValueError` raised on an
unterminated quote or escape. -/
def shlexSplit (s : String) : Option (List String) :=
  shlexAux s.data .ground [] []

/-! ### The suppression store (`silenced_line_is_active`, `SilentFile`) -/

/-- `silenced_line_is_active(line, curtime)`: split the line at the first
`':'`; if the epoch part is not numeric the line is skipped (the program
logs a warning and returns `None`); if the current time is strictly past
the epoch the entry has expired; otherwise the pattern part is active. -/
def silenced_line_is_active (line : String) (curtime : Int) : Option String :=
  let pr := pyPartitionColon line
  if pyIsNumeric pr.2 then
    let expired_at : Int := (digitsToNat pr.2.data : Int)
    if curtime > expired_at then none else some pr.1
  else none

namespace SilentFile

/-- Body of the `load` loop for one raw file line: strip it, skip it if
blank, consult `silenced_line_is_active`.  Python's `if active := ...:`
also drops an **empty** active pattern, since `""` is falsy. -/
def loadLine (curtime : Int) (line : String) : Option String :=
  let ls := pyStrip line
  if ls = "" then none
  else
    match silenced_line_is_active ls curtime with
    | some active => if active = "" then none else some active
    | none => none

/-- `SilentFile.load`: a missing file yields nothing; otherwise each
line of the file goes through `loadLine`, in file order. -/
def load (file : Option String) (curtime : Int) : List String :=
  match file with
  | none => []
  | some contents => (fileLines contents).filterMap (loadLine curtime)

/-- `SilentFile.autoprune`: skip if any silencer is active, skip if the
file is missing, skip if its contents strip to empty; otherwise delete
the file (result `none`). -/
def autoprune (silenced : List String) (file : Option String) : Option String :=
  if silenced.length > 0 then file
  else
    match file with
    | none => none
    | some contents => if pyStrip contents = "" then some contents else none

/-- Result of `SilentFile.add_to_file`: the file state afterwards and the
message of the `ValueError`, if one was raised.  A raise happens before
the file is opened, so on error the file is unchanged. -/
structure AddResult where
  newFile : Option String
  error : Option String
  deriving Repr, DecidableEq

/-- `SilentFile.add_to_file(name, duration)`: reject a name containing
`':'`, then a name that strips to empty; otherwise append one entry line
`name:(now + duration)` in append mode (creating a missing file). -/
def add_to_file (name : String) (duration : Int) (now : Int)
    (file : Option String) : AddResult :=
  if name.data.any (fun a => a = ':') then
    ⟨file, some "pattern to silence cannot contain ':'"⟩
  else if pyStrip name = "" then
    ⟨file, some "no text passed as input pattern"⟩
  else
    ⟨some ((file.getD "") ++ name ++ ":" ++ intToDecimal (now + duration) ++ "\n"),
      none⟩

/-- `SilentFile.is_silenced(name, silenced=...)`: `name` matches some
active pattern under `fnmatch.fnmatch`. -/
def is_silenced (name : String) (silenced : List String) : Bool :=
  silenced.any fun active => ReminderSink.fnmatch name active

end SilentFile

/-! ### `Script`: shebang detection, the child argument vector, and the
result classifier -/

/-- The `"/usr/bin/env "` prefix removed from a shebang by
`Script.detect_shebang`. -/
def envMarker : String := "/usr/bin/env "

namespace Script

/-- `Script.detect_shebang`, as a function of the script's first line:
if the line starts with `#!`, drop the marker and strip; remove a
leading `/usr/bin/env `; if the remainder strips to nonempty it is the
interpreter, otherwise (or with no shebang) there is none. -/
def detect_shebang (first_line : String) : Option String :=
  if pyStartsWith first_line "#!" then
    let interp := pyStrip (pyDrop first_line 2)
    let interp :=
      if pyStartsWith interp envMarker then pyDrop interp envMarker.data.length
      else interp
    if pyStrip interp ≠ "" then some interp else none
  else none

/-- The child argument vector built by `Script.run`:
`args = [*shlex.split(interp), str(self.path)]`, where `interp` is the
detected shebang or the default interpreter (`detect_shebang() or
INTERPRETER`; the `or` only replaces `None`, since a detected shebang is
never empty).  `none` models `shlex.split` raising. -/
def runArgs (first_line : String) (default_interp : String) (path : String) :
    Option (List String) :=
  match shlexSplit ((detect_shebang first_line).getD default_interp) with
  | some toks => some (toks ++ [path])
  | none => none

end Script

/-- A `Result`: script name, exit code, captured standard output. -/
def Result := String × Int × String

/-- `parse_result`: exit code `0` produces nothing, `2` the script name,
`3` the `splitlines` of the stripped output, anything else nothing (with
an error-level log message). -/
def parse_result (res : Result) : List String :=
  match res with
  | (name, exitcode, output) =>
    if exitcode = 0 then []
    else if exitcode = 2 then [name]
    else if exitcode = 3 then pySplitlines (pyStrip output)
    else []

/-! ### Basic lemmas about the string primitives -/

theorem string_mk_data (s : String) : String.mk s.data = s := rfl

theorem string_data_mk (cs : List Char) : (String.mk cs).data = cs := rfl

theorem string_mk_inj {cs ds : List Char} (h : String.mk cs = String.mk ds) :
    cs = ds := by
  injection h

theorem string_eq_empty_iff_data (s : String) : s = "" ↔ s.data = [] := by
  constructor
  · intro h; rw [h]
  · intro h
    rw [← string_mk_data s, h]

theorem dropWhile_eq_self_of_head {α} (p : α → Bool) (cs : List α)
    (h : ∀ c, cs.head? = some c → p c = false) : cs.dropWhile p = cs := by
  cases cs with
  | nil => rfl
  | cons c cs' =>
    have hc : p c = false := h c rfl
    simp [List.dropWhile_cons, hc]

theorem getLast?_dropWhile {α} (p : α → Bool) (xs : List α) {c : α}
    (h : (xs.dropWhile p).getLast? = some c) : xs.getLast? = some c := by
  induction xs with
  | nil => simp at h
  | cons a l ih =>
    rw [List.dropWhile_cons] at h
    by_cases hp : p a
    · rw [if_pos hp] at h
      have hl := ih h
      cases l with
      | nil => simp at hl
      | cons b m => rw [List.getLast?_cons_cons]; exact hl
    · rwa [if_neg hp] at h

theorem stripChars_eq_self {cs : List Char}
    (h1 : ∀ c, cs.head? = some c → pyIsSpace c = false)
    (h2 : ∀ c, cs.getLast? = some c → pyIsSpace c = false) :
    stripChars cs = cs := by
  unfold stripChars
  rw [dropWhile_eq_self_of_head _ _ h1]
  rw [dropWhile_eq_self_of_head _ _ fun c hc => h2 c (by simpa using hc)]
  exact List.reverse_reverse cs

theorem stripChars_head_not_space {cs : List Char} {c : Char}
    (h : (stripChars cs).head? = some c) : pyIsSpace c = false := by
  unfold stripChars at h
  rw [List.head?_reverse] at h
  have h2 := getLast?_dropWhile pyIsSpace ((cs.dropWhile pyIsSpace).reverse) h
  rw [List.getLast?_reverse] at h2
  have h3 := List.head?_dropWhile_not pyIsSpace cs
  rw [h2] at h3
  exact h3

theorem stripChars_getLast_not_space {cs : List Char} {c : Char}
    (h : (stripChars cs).getLast? = some c) : pyIsSpace c = false := by
  unfold stripChars at h
  rw [List.getLast?_reverse] at h
  have h3 := List.head?_dropWhile_not pyIsSpace ((cs.dropWhile pyIsSpace).reverse)
  rw [h] at h3
  exact h3

theorem mem_of_mem_stripChars {a : Char} {cs : List Char}
    (h : a ∈ stripChars cs) : a ∈ cs := by
  unfold stripChars at h
  rw [List.mem_reverse] at h
  have h1 := List.dropWhile_subset (l := (cs.dropWhile pyIsSpace).reverse) pyIsSpace h
  rw [List.mem_reverse] at h1
  exact List.dropWhile_subset pyIsSpace h1

theorem partitionColonChars_no_colon {cs : List Char} (h : ∀ a ∈ cs, a ≠ ':') :
    partitionColonChars cs = (cs, []) := by
  induction cs with
  | nil => rfl
  | cons c cs' ih =>
    have hc : ¬ (c = ':') := h c (by simp)
    simp only [partitionColonChars, if_neg hc, ih fun a ha => h a (by simp [ha])]

theorem partitionColonChars_append {xs ys : List Char} (h : ∀ a ∈ xs, a ≠ ':') :
    partitionColonChars (xs ++ ':' :: ys) = (xs, ys) := by
  induction xs with
  | nil => simp [partitionColonChars]
  | cons c xs' ih =>
    have hc : ¬ (c = ':') := h c (by simp)
    simp only [List.cons_append, partitionColonChars, if_neg hc, List.append_eq,
      ih fun a ha => h a (by simp [ha])]

/-! ### Lemmas about line splitting and joining -/

theorem splitOnNL_ne_nil (cs : List Char) : splitOnNL cs ≠ [] := by
  cases cs with
  | nil => simp [splitOnNL]
  | cons c cs' =>
    by_cases h : c = '\n'
    · simp [splitOnNL, h]
    · simp only [splitOnNL, if_neg h]
      cases splitOnNL cs' <;> simp

theorem splitOnNL_cons_nl (cs : List Char) :
    splitOnNL ('\n' :: cs) = [] :: splitOnNL cs := by
  simp [splitOnNL]

theorem splitOnNL_cons_of_ne {c : Char} {cs l : List Char} {ls : List (List Char)}
    (h : ¬ c = '\n') (hsp : splitOnNL cs = l :: ls) :
    splitOnNL (c :: cs) = (c :: l) :: ls := by
  simp [splitOnNL, h, hsp]

theorem splitlinesAux_false_nl (cs : List Char) :
    splitlinesAux false ('\n' :: cs) = [] :: splitlinesAux false cs := by
  simp [splitlinesAux, isLineBoundary]

theorem splitlinesAux_false_singleton {c : Char} {cs : List Char}
    (h : isLineBoundary c = false) (hsp : splitlinesAux false cs = []) :
    splitlinesAux false (c :: cs) = [[c]] := by
  simp [splitlinesAux, h, hsp]

theorem splitlinesAux_false_of_ne {c : Char} {cs l : List Char}
    {ls : List (List Char)} (h : isLineBoundary c = false)
    (hsp : splitlinesAux false cs = l :: ls) :
    splitlinesAux false (c :: cs) = (c :: l) :: ls := by
  simp [splitlinesAux, h, hsp]

theorem splitlinesAux_no_boundary (cs : List Char) : ∀ (b : Bool),
    ∀ l ∈ splitlinesAux b cs, ∀ c ∈ l, isLineBoundary c = false := by
  induction cs with
  | nil => intro b l hl; simp [splitlinesAux] at hl
  | cons c rest ih =>
    intro b l hl c0 hc0
    simp only [splitlinesAux] at hl
    by_cases h1 : b = true ∧ c = '\n'
    · rw [if_pos h1] at hl
      exact ih false l hl c0 hc0
    · rw [if_neg h1] at hl
      by_cases h2 : isLineBoundary c = true
      · rw [if_pos h2] at hl
        rcases List.mem_cons.mp hl with hl | hl
        · subst hl; simp at hc0
        · exact ih _ l hl c0 hc0
      · rw [if_neg h2] at hl
        simp only [Bool.not_eq_true] at h2
        cases hsp : splitlinesAux false rest with
        | nil =>
          rw [hsp] at hl
          rw [List.mem_singleton] at hl
          subst hl
          rw [List.mem_singleton] at hc0
          subst hc0
          exact h2
        | cons l0 ls0 =>
          rw [hsp] at hl
          rcases List.mem_cons.mp hl with hl | hl
          · subst hl
            rcases List.mem_cons.mp hc0 with hc0 | hc0
            · subst hc0; exact h2
            · exact ih false l0 (by rw [hsp]; exact List.mem_cons_self _ _) c0 hc0
          · exact ih false l (by rw [hsp]; exact List.mem_cons_of_mem _ hl) c0 hc0

theorem joinNLChars_cons_cons (c : Char) (l : List Char) (rest : List (List Char)) :
    joinNLChars ((c :: l) :: rest) = c :: joinNLChars (l :: rest) := by
  cases rest <;> rfl

theorem joinNLChars_splitOnNL (cs : List Char) : joinNLChars (splitOnNL cs) = cs := by
  induction cs with
  | nil => rfl
  | cons c cs' ih =>
    by_cases h : c = '\n'
    · subst h
      simp only [splitOnNL, if_pos rfl]
      cases hsp : splitOnNL cs' with
      | nil => exact absurd hsp (splitOnNL_ne_nil cs')
      | cons l ls =>
        show joinNLChars ([] :: l :: ls) = '\n' :: cs'
        rw [hsp] at ih
        show '\n' :: joinNLChars (l :: ls) = '\n' :: cs'
        rw [ih]
    · simp only [splitOnNL, if_neg h]
      cases hsp : splitOnNL cs' with
      | nil => exact absurd hsp (splitOnNL_ne_nil cs')
      | cons l ls =>
        rw [hsp] at ih
        rw [joinNLChars_cons_cons, ih]

theorem splitlinesChars_eq_splitOnNL {cs : List Char}
    (hne : cs ≠ []) (hlast : ∀ c, cs.getLast? = some c → c ≠ '\n')
    (hbd : ∀ a ∈ cs, isLineBoundary a = true → a = '\n') :
    splitlinesChars cs = splitOnNL cs := by
  unfold splitlinesChars
  induction cs with
  | nil => exact absurd rfl hne
  | cons c cs' ih =>
    have hcb_of : c ≠ '\n' → isLineBoundary c = false := by
      intro hc
      cases hcb : isLineBoundary c with
      | false => rfl
      | true => exact absurd (hbd c (by simp) hcb) hc
    by_cases hemp : cs' = []
    · subst hemp
      have hc : c ≠ '\n' := hlast c (by simp)
      rw [splitlinesAux_false_singleton (hcb_of hc)
        (show splitlinesAux false [] = [] from rfl)]
      simp [splitOnNL, hc]
    · have hih : splitlinesAux false cs' = splitOnNL cs' := by
        apply ih hemp
        · intro e he
          apply hlast e
          cases cs' with
          | nil => exact absurd rfl hemp
          | cons d cs'' => rw [List.getLast?_cons_cons]; exact he
        · intro a ha hab
          exact hbd a (by simp [ha]) hab
      cases hsp : splitOnNL cs' with
      | nil => exact absurd hsp (splitOnNL_ne_nil cs')
      | cons l ls =>
        rw [hsp] at hih
        by_cases h : c = '\n'
        · subst h
          rw [splitOnNL_cons_nl, splitlinesAux_false_nl, hih, hsp]
        · rw [splitOnNL_cons_of_ne h hsp, splitlinesAux_false_of_ne (hcb_of h) hih]

theorem splitOnNL_of_no_nl {cs : List Char} (h : ∀ a ∈ cs, a ≠ '\n') :
    splitOnNL cs = [cs] := by
  induction cs with
  | nil => rfl
  | cons c cs' ih =>
    have hc : ¬ (c = '\n') := h c (by simp)
    simp only [splitOnNL, if_neg hc, ih fun a ha => h a (by simp [ha])]

theorem splitOnNL_append_nl (zs : List Char) :
    splitOnNL (zs ++ ['\n']) = splitOnNL zs ++ [[]] := by
  induction zs with
  | nil => rfl
  | cons c zs' ih =>
    rw [List.cons_append]
    by_cases h : c = '\n'
    · subst h
      rw [splitOnNL_cons_nl, splitOnNL_cons_nl, ih, List.cons_append]
    · cases hsp : splitOnNL zs' with
      | nil => exact absurd hsp (splitOnNL_ne_nil zs')
      | cons l ls =>
        have hsp2 : splitOnNL (zs' ++ ['\n']) = l :: (ls ++ [[]]) := by
          rw [ih, hsp, List.cons_append]
        rw [splitOnNL_cons_of_ne h hsp2, splitOnNL_cons_of_ne h hsp,
          List.cons_append]

/-! ### Lemmas about decimal digits -/

theorem digitChar_isDigit {k : Nat} (h : k < 10) : (digitChar k).isDigit = true := by
  interval_cases k <;> decide

theorem digitChar_toNat {k : Nat} (h : k < 10) : (digitChar k).toNat = 48 + k := by
  interval_cases k <;> decide

theorem digitsToNat_append_digit (cs : List Char) (c : Char) :
    digitsToNat (cs ++ [c]) = 10 * digitsToNat cs + (c.toNat - 48) := by
  unfold digitsToNat
  rw [List.foldl_append]
  rfl

theorem natToDigitsAux_spec : ∀ fuel n, n < fuel →
    natToDigitsAux fuel n ≠ [] ∧
    (∀ c ∈ natToDigitsAux fuel n, c.isDigit = true) ∧
    digitsToNat (natToDigitsAux fuel n) = n := by
  intro fuel
  induction fuel with
  | zero => intro n hn; omega
  | succ fuel ih =>
    intro n hn
    by_cases h10 : n < 10
    · refine ⟨by simp [natToDigitsAux, h10], ?_, ?_⟩
      · intro c hc
        simp only [natToDigitsAux, if_pos h10, List.mem_singleton] at hc
        subst hc
        exact digitChar_isDigit h10
      · simp only [natToDigitsAux, if_pos h10]
        show digitsToNat ([] ++ [digitChar n]) = n
        rw [digitsToNat_append_digit, digitChar_toNat h10]
        simp [digitsToNat]
    · have hpos : 0 < n := by omega
      have hdiv : n / 10 < n := Nat.div_lt_self hpos (by omega)
      have hfuel : n / 10 < fuel := by omega
      obtain ⟨ihne, ihdig, ihval⟩ := ih (n / 10) hfuel
      have hmod : n % 10 < 10 := Nat.mod_lt n (by omega)
      refine ⟨by simp [natToDigitsAux, h10], ?_, ?_⟩
      · intro c hc
        simp only [natToDigitsAux, if_neg h10, List.mem_append,
          List.mem_singleton] at hc
        rcases hc with hc | hc
        · exact ihdig c hc
        · subst hc; exact digitChar_isDigit hmod
      · simp only [natToDigitsAux, if_neg h10]
        rw [digitsToNat_append_digit, ihval, digitChar_toNat hmod]
        omega

theorem natToDigits_ne_nil (n : Nat) : natToDigits n ≠ [] :=
  (natToDigitsAux_spec (n + 1) n (by omega)).1

theorem natToDigits_all_digit (n : Nat) : ∀ c ∈ natToDigits n, c.isDigit = true :=
  (natToDigitsAux_spec (n + 1) n (by omega)).2.1

theorem digitsToNat_natToDigits (n : Nat) : digitsToNat (natToDigits n) = n :=
  (natToDigitsAux_spec (n + 1) n (by omega)).2.2

theorem digit_props {c : Char} (h : c.isDigit = true) :
    pyIsSpace c = false ∧ c ≠ ':' ∧ c ≠ '\n' := by
  refine ⟨?_, ?_, ?_⟩
  · by_contra hs
    rw [Bool.not_eq_false] at hs
    simp only [pyIsSpace, decide_eq_true_eq] at hs
    rcases hs with h1 | h1 | h1 | h1 | h1 | h1 <;> subst h1 <;>
      exact absurd h (by decide)
  · intro he; subst he; exact absurd h (by decide)
  · intro he; subst he; exact absurd h (by decide)

/-! ### Strip and partition of entry lines -/

theorem dropWhile_append_cons_neg {α} (p : α → Bool) (xs : List α) (y : α)
    (ys : List α) (hy : p y = false) :
    (xs ++ y :: ys).dropWhile p = xs.dropWhile p ++ y :: ys := by
  induction xs with
  | nil => simp [List.dropWhile_cons, hy]
  | cons x xs' ih =>
    by_cases h : p x
    · simp [List.dropWhile_cons, h, ih]
    · simp [List.dropWhile_cons, h]

theorem stripChars_append_colon {xs ds : List Char} (hds : ds ≠ [])
    (hlast : ∀ c, ds.getLast? = some c → pyIsSpace c = false) :
    stripChars (xs ++ ':' :: ds) = xs.dropWhile pyIsSpace ++ ':' :: ds := by
  have hcolon : pyIsSpace ':' = false := by decide
  unfold stripChars
  rw [dropWhile_append_cons_neg pyIsSpace xs ':' ds hcolon]
  rw [dropWhile_eq_self_of_head pyIsSpace _ ?_]
  · exact List.reverse_reverse _
  · intro c hc
    rw [List.head?_reverse] at hc
    rw [List.getLast?_append] at hc
    have hds' : (':' :: ds).getLast? = some c := by
      rcases hgl : (':' :: ds).getLast? with _ | e
      · rw [List.getLast?_eq_none_iff] at hgl; simp at hgl
      · rw [hgl] at hc; simpa using hc
    cases ds with
    | nil => exact absurd rfl hds
    | cons d ds' =>
      rw [List.getLast?_cons_cons] at hds'
      exact hlast c hds'

/-! ### Decimal rendering of epochs (`intToDecimal`) -/

theorem intToDecimal_data_nonneg {e : Int} (he : 0 ≤ e) :
    (intToDecimal e).data = natToDigits e.toNat := by
  unfold intToDecimal
  rw [if_neg (by omega)]

theorem intToDecimal_data_neg {e : Int} (he : e < 0) :
    (intToDecimal e).data = '-' :: natToDigits (-e).toNat := by
  unfold intToDecimal
  rw [if_pos he]

theorem intToDecimal_ne_nil (e : Int) : (intToDecimal e).data ≠ [] := by
  by_cases he : e < 0
  · rw [intToDecimal_data_neg he]; simp
  · rw [intToDecimal_data_nonneg (by omega)]
    exact natToDigits_ne_nil _

theorem intToDecimal_getLast_digit (e : Int) :
    ∀ c, ((intToDecimal e).data).getLast? = some c → c.isDigit = true := by
  intro c hc
  by_cases he : e < 0
  · rw [intToDecimal_data_neg he] at hc
    cases hnd : natToDigits (-e).toNat with
    | nil => exact absurd hnd (natToDigits_ne_nil _)
    | cons d ds =>
      rw [hnd, List.getLast?_cons_cons] at hc
      exact natToDigits_all_digit _ c (by rw [hnd]; exact List.mem_of_getLast?_eq_some hc)
  · rw [intToDecimal_data_nonneg (by omega)] at hc
    exact natToDigits_all_digit _ c (List.mem_of_getLast?_eq_some hc)

theorem intToDecimal_no_nl (e : Int) : ∀ a ∈ (intToDecimal e).data, a ≠ '\n' := by
  intro a ha
  by_cases he : e < 0
  · rw [intToDecimal_data_neg he] at ha
    rcases ha with _ | ⟨_, ha⟩
    · decide
    · exact (digit_props (natToDigits_all_digit _ a ha)).2.2
  · rw [intToDecimal_data_nonneg (by omega)] at ha
    exact (digit_props (natToDigits_all_digit _ a ha)).2.2

theorem pyIsNumeric_intToDecimal_nonneg {e : Int} (he : 0 ≤ e) :
    pyIsNumeric (String.mk (intToDecimal e).data) = true := by
  rw [intToDecimal_data_nonneg he]
  unfold pyIsNumeric
  rw [Bool.and_eq_true]
  constructor
  · simp [natToDigits_ne_nil e.toNat]
  · rw [List.all_eq_true]
    exact natToDigits_all_digit e.toNat

theorem pyIsNumeric_intToDecimal_neg {e : Int} (he : e < 0) :
    pyIsNumeric (String.mk (intToDecimal e).data) = false := by
  rw [intToDecimal_data_neg he]
  have hm : ('-').isDigit = false := by decide
  simp [pyIsNumeric, List.all_cons, hm]

/-! ### filterMap and sublists -/

theorem filterMap_sublist_map {α β} (f : α → Option β) (g : α → β) (l : List α)
    (h : ∀ x y, f x = some y → y = g x) : (l.filterMap f).Sublist (l.map g) := by
  induction l with
  | nil => simp
  | cons a l' ih =>
    rw [List.filterMap_cons, List.map_cons]
    cases hf : f a with
    | none => exact ih.cons _
    | some b => rw [h a b hf]; exact ih.cons₂ _

/-! ### Decomposing a file written by `add_to_file` -/

theorem string_ext {s t : String} (h : s.data = t.data) : s = t := by
  rw [← string_mk_data s, ← string_mk_data t, h]

theorem string_empty_append (s : String) : ("" : String) ++ s = s := by
  apply string_ext
  rw [String.data_append]
  rfl

theorem entry_data (p : String) (e : Int) :
    (p ++ ":" ++ intToDecimal e ++ "\n").data
      = (p.data ++ ':' :: (intToDecimal e).data) ++ ['\n'] := by
  simp only [String.data_append]
  simp

theorem mem_splitOnNL_append_colon {xs ys : List Char}
    (hx : ∀ a ∈ xs, a ≠ ':') (hy : ∀ a ∈ ys, a ≠ '\n') :
    ∀ l ∈ splitOnNL (xs ++ ':' :: ys),
      (∀ a ∈ l, a ≠ ':') ∨ ∃ x', (∀ a ∈ x', a ≠ ':') ∧ l = x' ++ ':' :: ys := by
  induction xs with
  | nil =>
    intro l hl
    rw [List.nil_append] at hl
    have hnl : ∀ a ∈ ':' :: ys, a ≠ '\n' := by
      intro a ha
      rcases List.mem_cons.mp ha with ha | ha
      · subst ha; decide
      · exact hy a ha
    rw [splitOnNL_of_no_nl hnl, List.mem_singleton] at hl
    subst hl
    exact Or.inr ⟨[], by simp, rfl⟩
  | cons c xs' ih =>
    have hx' : ∀ a ∈ xs', a ≠ ':' := fun a ha => hx a (by simp [ha])
    have hc : c ≠ ':' := hx c (by simp)
    intro l hl
    rw [List.cons_append] at hl
    by_cases h : c = '\n'
    · subst h
      rw [splitOnNL_cons_nl, List.mem_cons] at hl
      rcases hl with hl | hl
      · subst hl; exact Or.inl (by simp)
      · exact ih hx' l hl
    · cases hsp : splitOnNL (xs' ++ ':' :: ys) with
      | nil => exact absurd hsp (splitOnNL_ne_nil _)
      | cons l0 ls =>
        rw [splitOnNL_cons_of_ne h hsp, List.mem_cons] at hl
        rcases hl with hl | hl
        · subst hl
          have hl0 := ih hx' l0 (by rw [hsp]; exact List.mem_cons_self _ _)
          rcases hl0 with hfree | ⟨x', hxf, heq⟩
          · refine Or.inl ?_
            intro a ha
            rcases List.mem_cons.mp ha with ha | ha
            · subst ha; exact hc
            · exact hfree a ha
          · refine Or.inr ⟨c :: x', ?_, by rw [heq, List.cons_append]⟩
            intro a ha
            rcases List.mem_cons.mp ha with ha | ha
            · subst ha; exact hc
            · exact hxf a ha
        · exact ih hx' l (by rw [hsp]; exact List.mem_cons_of_mem _ hl)

/-! ### Evaluating `load` on files written by `add_to_file` -/

theorem head?_append_of_ne_nil {α} {xs ys : List α} {c : α} (hx : xs ≠ [])
    (h : (xs ++ ys).head? = some c) : xs.head? = some c := by
  cases xs with
  | nil => exact absurd rfl hx
  | cons a l => simpa using h

theorem getLast?_append_cons {α} {xs ys : List α} {y c : α}
    (h : (xs ++ y :: ys).getLast? = some c) : (y :: ys).getLast? = some c := by
  rw [List.getLast?_append] at h
  rcases hgl : (y :: ys).getLast? with _ | x
  · rw [List.getLast?_eq_none_iff] at hgl; simp at hgl
  · rw [hgl] at h; simpa using h

theorem load_some (contents : String) (t : Int) :
    SilentFile.load (some contents) t =
      (fileLines contents).filterMap (SilentFile.loadLine t) := rfl

theorem silenced_line_no_colon {lc : List Char} (t : Int)
    (h : ∀ a ∈ lc, a ≠ ':') :
    silenced_line_is_active (String.mk lc) t = none := by
  simp only [silenced_line_is_active, pyPartitionColon, string_data_mk,
    partitionColonChars_no_colon h]
  simp [pyIsNumeric]

theorem silenced_line_entry {xs ds : List Char} (t : Int)
    (hx : ∀ a ∈ xs, a ≠ ':') :
    silenced_line_is_active (String.mk (xs ++ ':' :: ds)) t =
      if pyIsNumeric (String.mk ds) then
        (if t > (digitsToNat ds : Int) then none else some (String.mk xs))
      else none := by
  simp only [silenced_line_is_active, pyPartitionColon, string_data_mk,
    partitionColonChars_append hx]

theorem loadLine_blank (t : Int) : SilentFile.loadLine t "" = none := rfl

theorem loadLine_no_colon {lc : List Char} (t : Int) (h : ∀ a ∈ lc, a ≠ ':') :
    SilentFile.loadLine t (String.mk lc) = none := by
  simp only [SilentFile.loadLine]
  by_cases hb : pyStrip (String.mk lc) = ""
  · rw [if_pos hb]
  · rw [if_neg hb]
    have hs : pyStrip (String.mk lc) = String.mk (stripChars lc) := rfl
    have hfree : ∀ a ∈ stripChars lc, a ≠ ':' :=
      fun a ha => h a (mem_of_mem_stripChars ha)
    rw [hs, silenced_line_no_colon t hfree]

theorem stripChars_nonempty_of_append_cons {xs ys : List Char} {y : Char} :
    String.mk (xs ++ y :: ys) = "" → False := by
  intro h
  rw [string_eq_empty_iff_data, string_data_mk] at h
  simp at h

theorem loadLine_entry {xs : List Char} (e t : Int) (hx : ∀ a ∈ xs, a ≠ ':') :
    SilentFile.loadLine t (String.mk (xs ++ ':' :: (intToDecimal e).data)) =
      if pyIsNumeric (String.mk (intToDecimal e).data) then
        (if t > (digitsToNat (intToDecimal e).data : Int) then none
         else if String.mk (xs.dropWhile pyIsSpace) = "" then none
         else some (String.mk (xs.dropWhile pyIsSpace)))
      else none := by
  have hds_ne := intToDecimal_ne_nil e
  have hds_last : ∀ c, (intToDecimal e).data.getLast? = some c → pyIsSpace c = false :=
    fun c hc => (digit_props (intToDecimal_getLast_digit e c hc)).1
  simp only [SilentFile.loadLine]
  have hs : pyStrip (String.mk (xs ++ ':' :: (intToDecimal e).data))
      = String.mk (xs.dropWhile pyIsSpace ++ ':' :: (intToDecimal e).data) := by
    show String.mk (stripChars (xs ++ ':' :: (intToDecimal e).data)) = _
    rw [stripChars_append_colon hds_ne hds_last]
  rw [hs]
  rw [if_neg (fun h => stripChars_nonempty_of_append_cons h)]
  have hx' : ∀ a ∈ xs.dropWhile pyIsSpace, a ≠ ':' :=
    fun a ha => hx a (List.dropWhile_subset _ ha)
  rw [silenced_line_entry t hx']
  by_cases hnum : pyIsNumeric (String.mk (intToDecimal e).data) = true
  · rw [if_pos hnum, if_pos hnum]
    by_cases hexp : t > (digitsToNat (intToDecimal e).data : Int)
    · rw [if_pos hexp, if_pos hexp]
    · rw [if_neg hexp, if_neg hexp]
  · rw [if_neg hnum, if_neg hnum]

theorem load_single_entry (p : String) (e t : Int)
    (hne : p.data ≠ []) (hcol : ∀ a ∈ p.data, a ≠ ':')
    (hnl : ∀ a ∈ p.data, a ≠ '\n')
    (hlead : ∀ c, p.data.head? = some c → pyIsSpace c = false)
    (he : 0 ≤ e) :
    SilentFile.load (some (p ++ ":" ++ intToDecimal e ++ "\n")) t
      = if t ≤ e then [p] else [] := by
  have hzs_nl : ∀ a ∈ p.data ++ ':' :: (intToDecimal e).data, a ≠ '\n' := by
    intro a ha
    rcases List.mem_append.mp ha with ha | ha
    · exact hnl a ha
    · rcases List.mem_cons.mp ha with ha | ha
      · subst ha; decide
      · exact intToDecimal_no_nl e a ha
  have hlines : fileLines (p ++ ":" ++ intToDecimal e ++ "\n")
      = [String.mk (p.data ++ ':' :: (intToDecimal e).data), ""] := by
    unfold fileLines
    rw [entry_data, splitOnNL_append_nl, splitOnNL_of_no_nl hzs_nl]
    rfl
  rw [load_some, hlines, List.filterMap_cons, List.filterMap_cons,
    List.filterMap_nil, loadLine_blank, loadLine_entry e t hcol]
  rw [if_pos (pyIsNumeric_intToDecimal_nonneg he)]
  have hval : (digitsToNat (intToDecimal e).data : Int) = e := by
    rw [intToDecimal_data_nonneg he, digitsToNat_natToDigits]
    exact Int.toNat_of_nonneg he
  rw [hval]
  have hdrop : p.data.dropWhile pyIsSpace = p.data :=
    dropWhile_eq_self_of_head pyIsSpace p.data hlead
  rw [hdrop, string_mk_data]
  have hpne : ¬ (p = "") := fun h => hne ((string_eq_empty_iff_data p).mp h)
  by_cases hte : t ≤ e
  · rw [if_neg (by omega : ¬ t > e), if_neg hpne, if_pos hte]
  · rw [if_pos (by omega : t > e), if_neg hte]

theorem load_entry_expired (p : String) (e t : Int)
    (hcol : ∀ a ∈ p.data, a ≠ ':') (ht : e < t) :
    SilentFile.load (some (p ++ ":" ++ intToDecimal e ++ "\n")) t = [] := by
  rw [load_some]
  unfold fileLines
  rw [entry_data, splitOnNL_append_nl]
  rw [List.map_append, List.filterMap_append]
  have hblank : List.filterMap (SilentFile.loadLine t) (List.map String.mk [[]]) = [] := by
    simp [loadLine_blank]
  rw [hblank, List.append_nil]
  rw [List.filterMap_map]
  rw [List.filterMap_eq_nil_iff]
  intro lc hlc
  have hmem := mem_splitOnNL_append_colon hcol (intToDecimal_no_nl e) lc hlc
  show SilentFile.loadLine t (String.mk lc) = none
  rcases hmem with hfree | ⟨x', hxf, heq⟩
  · exact loadLine_no_colon t hfree
  · subst heq
    rw [loadLine_entry e t hxf]
    by_cases hnum : pyIsNumeric (String.mk (intToDecimal e).data) = true
    · rw [if_pos hnum]
      by_cases hneg : e < 0
      · exact absurd hnum (by rw [pyIsNumeric_intToDecimal_neg hneg]; simp)
      · have hval : (digitsToNat (intToDecimal e).data : Int) = e := by
          rw [intToDecimal_data_nonneg (by omega), digitsToNat_natToDigits]
          exact Int.toNat_of_nonneg (by omega)
        rw [hval, if_pos (by omega : t > e)]
    · rw [if_neg hnum]

/-! ### Joining classified lines back into text (used to state C1) -/

/-- Join a list of lines with `'\n'`. -/
def joinNL (ls : List String) : String :=
  String.mk (joinNLChars (ls.map String.data))

/-! ## The claims -/

/-- C1 counterexample: for exit code 3 with captured output `"a\n\nb\n"`,
`parse_result` produces `["a", "", "b"]` — the interior blank line is
kept — and not `["a", "b"]` as claimed. -/
theorem parse_result_exit3_counterexample :
    parse_result ("s", 3, "a\n\nb\n") = ["a", "", "b"] ∧
    parse_result ("s", 3, "a\n\nb\n") ≠ ["a", "b"] := by
  constructor <;> decide

/-- C1 (amended): for exit code 3, `parse_result` produces the lines of
the **trimmed** captured output split at Python line boundaries
(`\n`, `\r`, `\r\n` as one, `\v`, `\f`, `\x1c`-`\x1e`, `\x85`,
`\u2028`, `\u2029`), in original order; the trim removes only leading
and trailing whitespace, so interior blank lines are preserved as empty
strings (while `"a\x0bb\n"` splits into `["a", "b"]`); no produced line
contains a line boundary, and whenever the only boundaries occurring in
the output are `'\n'`, joining the produced lines with `'\n'`
reconstructs the trimmed output exactly. -/
theorem parse_result_exit3 (name output : String) :
    parse_result (name, 3, output) = pySplitlines (pyStrip output) ∧
    parse_result (name, 3, "a\x0bb\n") = ["a", "b"] ∧
    (∀ l ∈ parse_result (name, 3, output), ∀ c ∈ l.data,
      isLineBoundary c = false) ∧
    ((∀ c ∈ output.data, isLineBoundary c = true → c = '\n') →
      joinNL (parse_result (name, 3, output)) = pyStrip output) := by
  have h1 : ∀ out : String, parse_result (name, 3, out) = pySplitlines (pyStrip out) := by
    intro out
    norm_num [parse_result]
  refine ⟨h1 output, ?_, ?_, ?_⟩
  · rw [h1]
    decide
  · rw [h1]
    intro l hl c hc
    unfold pySplitlines at hl
    rw [List.mem_map] at hl
    obtain ⟨lc, hlc, hmk⟩ := hl
    subst hmk
    rw [string_data_mk] at hc
    exact splitlinesAux_no_boundary _ false lc hlc c hc
  · intro hbd
    rw [h1]
    unfold joinNL pySplitlines
    rw [List.map_map]
    have hdm : (String.data ∘ String.mk) = id := funext fun cs => rfl
    rw [hdm, List.map_id]
    apply string_ext
    rw [string_data_mk]
    by_cases hd : (pyStrip output).data = []
    · rw [hd]; rfl
    · have hlast : ∀ x, (pyStrip output).data.getLast? = some x → x ≠ '\n' := by
        intro x hx
        have hns : pyIsSpace x = false := stripChars_getLast_not_space hx
        intro he; subst he
        exact absurd hns (by decide)
      have hbd' : ∀ a ∈ (pyStrip output).data, isLineBoundary a = true → a = '\n' :=
        fun a ha hab => hbd a (mem_of_mem_stripChars ha) hab
      rw [splitlinesChars_eq_splitOnNL hd hlast hbd', joinNLChars_splitOnNL]

/-- C1 witness: at output `"a\n\nb\n"`, whose only line boundaries are
newlines, the produced lines `["a", "", "b"]` join back to the trimmed
output `"a\n\nb"`. -/
theorem parse_result_exit3_witness :
    joinNL (parse_result ("s", 3, "a\n\nb\n")) = pyStrip "a\n\nb\n" :=
  (parse_result_exit3 "s" "a\n\nb\n").2.2.2 (by decide)

/-- C6: `parse_result` produces exactly `[name]` for exit code 2
regardless of output, and an empty line list for exit code 0 and for
every exit code outside {0, 2, 3}. -/
theorem parse_result_codes (name output : String) (code : Int)
    (h0 : code ≠ 0) (h2 : code ≠ 2) (h3 : code ≠ 3) :
    parse_result (name, 2, output) = [name] ∧
    parse_result (name, 0, output) = [] ∧
    parse_result (name, code, output) = [] := by
  refine ⟨?_, ?_, ?_⟩
  · norm_num [parse_result]
  · norm_num [parse_result]
  · simp [parse_result, h0, h2, h3]

/-- C6 witness at exit codes 2, 0 and 17. -/
theorem parse_result_codes_witness :
    parse_result ("s", 2, "out") = ["s"] ∧
    parse_result ("s", 0, "out") = [] ∧
    parse_result ("s", 17, "out") = [] :=
  parse_result_codes "s" "out" 17 (by decide) (by decide) (by decide)

/-- C3: `autoprune` either deletes the file whole or leaves it untouched
(never a partial rewrite), and when the file exists it deletes exactly
when the active set is empty and the contents do not strip to empty. -/
theorem autoprune_cons (s : String) (ss : List String) (file : Option String) :
    SilentFile.autoprune (s :: ss) file = file := by
  unfold SilentFile.autoprune
  rw [if_pos (by simp)]

theorem autoprune_nil_some (c : String) :
    SilentFile.autoprune [] (some c) =
      if pyStrip c = "" then some c else none := rfl

theorem autoprune_correct (silenced : List String) (file : Option String) :
    (SilentFile.autoprune silenced file = none ∨
      SilentFile.autoprune silenced file = file) ∧
    (∀ c, file = some c →
      (SilentFile.autoprune silenced file = none ↔
        silenced = [] ∧ pyStrip c ≠ "")) := by
  cases silenced with
  | cons s ss =>
    rw [autoprune_cons]
    constructor
    · right; rfl
    · intro c hc
      constructor
      · intro h; rw [hc] at h; cases h
      · rintro ⟨h, _⟩; cases h
  | nil =>
    cases file with
    | none =>
      constructor
      · left; rfl
      · intro c hc; cases hc
    | some c0 =>
      rw [autoprune_nil_some]
      constructor
      · by_cases hs : pyStrip c0 = ""
        · right; rw [if_pos hs]
        · left; rw [if_neg hs]
      · intro c hc
        have hcc : c0 = c := by injection hc
        subst hcc
        by_cases hs : pyStrip c0 = ""
        · rw [if_pos hs]
          exact ⟨(fun h => nomatch h), fun h => absurd hs h.2⟩
        · rw [if_neg hs]
          exact ⟨fun _ => ⟨rfl, hs⟩, fun _ => rfl⟩

/-- C3 witness: a file holding only an expired entry is deleted when no
pattern is active, and kept byte-for-byte when one is. -/
theorem autoprune_correct_witness :
    SilentFile.autoprune [] (some "a:1\n") = none ∧
    SilentFile.autoprune ["stillactive"] (some "a:1\n") = some "a:1\n" := by
  constructor
  · exact ((autoprune_correct [] (some "a:1\n")).2 "a:1\n" rfl).mpr ⟨rfl, by decide⟩
  · rcases (autoprune_correct ["stillactive"] (some "a:1\n")).1 with h | h
    · exact absurd (((autoprune_correct ["stillactive"] (some "a:1\n")).2
        "a:1\n" rfl).mp h).1 (by decide)
    · exact h

/-- C4: `add_to_file` fails (raising before any write, so the file is
unchanged) whenever the pattern contains `':'` or strips to empty;
otherwise it succeeds and appends the single entry line
`pattern:(now + duration)` with a trailing newline, creating a missing
file. -/
theorem add_to_file_validation (name : String) (d now : Int) (file : Option String) :
    ((':' ∈ name.data ∨ pyStrip name = "") →
      (SilentFile.add_to_file name d now file).error.isSome = true ∧
      (SilentFile.add_to_file name d now file).newFile = file) ∧
    (¬ ':' ∈ name.data → pyStrip name ≠ "" →
      (SilentFile.add_to_file name d now file).error = none ∧
      (SilentFile.add_to_file name d now file).newFile =
        some ((file.getD "") ++ name ++ ":" ++ intToDecimal (now + d) ++ "\n")) := by
  unfold SilentFile.add_to_file
  by_cases hc : name.data.any (fun a => a = ':') = true
  · have hcm : ':' ∈ name.data := by
      rw [List.any_eq_true] at hc
      obtain ⟨x, hx, hxe⟩ := hc
      rw [decide_eq_true_eq] at hxe
      rw [← hxe]; exact hx
    rw [if_pos hc]
    constructor
    · intro _; exact ⟨rfl, rfl⟩
    · intro hn _; exact absurd hcm hn
  · rw [if_neg hc]
    by_cases hs : pyStrip name = ""
    · rw [if_pos hs]
      constructor
      · intro _; exact ⟨rfl, rfl⟩
      · intro _ hns; exact absurd hs hns
    · rw [if_neg hs]
      have hnc : ¬ ':' ∈ name.data := by
        intro hm
        exact hc (by rw [List.any_eq_true]; exact ⟨':', hm, by simp⟩)
      constructor
      · rintro (h | h)
        · exact absurd h hnc
        · exact absurd h hs
      · intro _ _; exact ⟨rfl, rfl⟩

/-- C4 witness: `add("bad:name", 10)` fails with the pattern-validation
error and the backing file is unmodified. -/
theorem add_to_file_validation_witness :
    (SilentFile.add_to_file "bad:name" 10 1000 (some "x:5\n")).error.isSome = true ∧
    (SilentFile.add_to_file "bad:name" 10 1000 (some "x:5\n")).newFile = some "x:5\n" :=
  (add_to_file_validation "bad:name" 10 1000 (some "x:5\n")).1 (Or.inl (by decide))

/-- C7: `is_silenced` is true exactly when the name glob-matches some
active pattern under `fnmatch` shell-style wildcard semantics
(`*`, `?`, `[...]`, with `.` **not** a wildcard as it would be in a
regular expression), with the claim's concrete instances. -/
theorem is_silenced_glob (name : String) (silenced : List String) :
    (SilentFile.is_silenced name silenced = true ↔
      ∃ p ∈ silenced, fnmatch name p = true) ∧
    SilentFile.is_silenced "foobar" ["foo*"] = true ∧
    SilentFile.is_silenced "barfoo" ["foo*"] = false ∧
    fnmatch "fooX" "foo." = false ∧
    fnmatch "foo." "foo." = true ∧
    fnmatch "fb" "f?" = true ∧
    fnmatch "fa" "f[ab]" = true ∧
    fnmatch "fc" "f[ab]" = false := by
  refine ⟨?_, by decide, by decide, by decide, by decide, by decide,
    by decide, by decide⟩
  simp [SilentFile.is_silenced, List.any_eq_true]

theorem loadLine_eq_bind (t : Int) (line : String) :
    SilentFile.loadLine t line =
      (silenced_line_is_active (pyStrip line) t).bind
        (fun a => if a = "" then none else some a) := by
  simp only [SilentFile.loadLine]
  by_cases hb : pyStrip line = ""
  · rw [if_pos hb, hb]
    rfl
  · rw [if_neg hb]
    cases silenced_line_is_active (pyStrip line) t <;> rfl

theorem silenced_line_some {s : String} {t : Int} {a : String}
    (h : silenced_line_is_active s t = some a) :
    a = (pyPartitionColon s).1 := by
  simp only [silenced_line_is_active] at h
  by_cases hn : pyIsNumeric (pyPartitionColon s).2 = true
  · rw [if_pos hn] at h
    by_cases hc : t > (digitsToNat (pyPartitionColon s).2.data : Int)
    · rw [if_pos hc] at h; cases h
    · rw [if_neg hc] at h
      injection h with h
      exact h.symm
  · rw [if_neg hn] at h; cases h

/-- C5 counterexample: the line `":123"` is non-blank and its epoch
parses to a future time at `now = 0`, so by the claim its pattern (the
empty string before the `':'`) survives and should be returned, yet
`load` drops it: the walrus truthiness check rejects the empty pattern. -/
theorem load_counterexample :
    silenced_line_is_active ":123" 0 = some "" ∧
    SilentFile.load (some ":123\n") 0 = [] := by
  constructor <;> decide

/-- C5 (amended): `load` is total: a missing file yields the empty
sequence; on an existing file it is exactly the per-line pipeline
strip → skip-blank → parse-epoch (skipping lines whose epoch is not a
digit string) → skip-expired, **and additionally a surviving active
entry whose pattern part is empty is dropped**; the surviving patterns
come back in file order (a sublist of the per-line pattern prefixes)
and each one arises from an active line of the file. -/
theorem load_total_characterization (file : Option String) (t : Int) :
    (file = none → SilentFile.load file t = []) ∧
    (∀ c, file = some c →
      SilentFile.load file t = (fileLines c).filterMap (fun line =>
        (silenced_line_is_active (pyStrip line) t).bind
          (fun a => if a = "" then none else some a)) ∧
      (SilentFile.load file t).Sublist
        ((fileLines c).map (fun line => (pyPartitionColon (pyStrip line)).1)) ∧
      (∀ q ∈ SilentFile.load file t, q ≠ "" ∧
        ∃ line ∈ fileLines c, silenced_line_is_active (pyStrip line) t = some q)) := by
  constructor
  · intro h; rw [h]; rfl
  · intro c hc
    subst hc
    refine ⟨?_, ?_, ?_⟩
    · rw [load_some]
      exact congrArg (fun f => (fileLines c).filterMap f)
        (funext fun line => loadLine_eq_bind t line)
    · rw [load_some]
      apply filterMap_sublist_map
      intro x y hxy
      rw [loadLine_eq_bind] at hxy
      cases hact : silenced_line_is_active (pyStrip x) t with
      | none => rw [hact] at hxy; cases hxy
      | some a =>
        rw [hact] at hxy
        have hxy' : (if a = "" then none else some a) = some y := hxy
        by_cases ha : a = ""
        · rw [if_pos ha] at hxy'; cases hxy'
        · rw [if_neg ha] at hxy'
          injection hxy' with hxy'
          rw [← hxy']
          exact silenced_line_some hact
    · intro q hq
      rw [load_some, List.mem_filterMap] at hq
      obtain ⟨line, hline, hq⟩ := hq
      rw [loadLine_eq_bind] at hq
      cases hact : silenced_line_is_active (pyStrip line) t with
      | none => rw [hact] at hq; cases hq
      | some a =>
        rw [hact] at hq
        have hq' : (if a = "" then none else some a) = some q := hq
        by_cases ha : a = ""
        · rw [if_pos ha] at hq'; cases hq'
        · rw [if_neg ha] at hq'
          injection hq' with hq'
          subst hq'
          exact ⟨ha, line, hline, hact⟩

/-- C5 witness: a missing file loads as empty, and a loaded file's
surviving patterns form a sublist of its per-line pattern prefixes. -/
theorem load_total_characterization_witness :
    SilentFile.load none 7 = [] ∧
    (SilentFile.load (some "x:9\nbad\n") 7).Sublist
      ((fileLines "x:9\nbad\n").map (fun line => (pyPartitionColon (pyStrip line)).1)) := by
  constructor
  · exact (load_total_characterization none 7).1 rfl
  · exact ((load_total_characterization (some "x:9\nbad\n") 7).2 "x:9\nbad\n" rfl).2.1

/-- Result of a successful `add_to_file` on an arbitrary prior state:
validation passes and the entry line is appended. -/
theorem add_to_file_ok (p : String) (d now : Int) (file : Option String)
    (hval2 : ∀ a ∈ p.data, a ≠ ':') (hval1 : pyStrip p ≠ "") :
    SilentFile.add_to_file p d now file =
      ⟨some ((file.getD "") ++ p ++ ":" ++ intToDecimal (now + d) ++ "\n"), none⟩ := by
  unfold SilentFile.add_to_file
  rw [if_neg ?_, if_neg hval1]
  rw [List.any_eq_true]
  rintro ⟨x, hx, hxe⟩
  rw [decide_eq_true_eq] at hxe
  exact hval2 x hx hxe

/-- Successful `add_to_file` on a missing file: the new file holds
exactly the entry line. -/
theorem add_to_file_ok_none (p : String) (d now : Int)
    (hval2 : ∀ a ∈ p.data, a ≠ ':') (hval1 : pyStrip p ≠ "") :
    SilentFile.add_to_file p d now none =
      ⟨some (p ++ ":" ++ intToDecimal (now + d) ++ "\n"), none⟩ := by
  rw [add_to_file_ok p d now none hval2 hval1]
  show SilentFile.AddResult.mk (some (("" : String) ++ p ++ ":" ++ intToDecimal (now + d) ++ "\n")) none = _
  rw [string_empty_append]

/-- C2 counterexample: `" a"` is a valid pattern by the claim's own
criterion (non-empty after trimming, no `':'`), `add(" a", 100)` at time
1000 succeeds and writes expiry 1100, yet `load` at time 1000 — at or
before the expiry — returns `["a"]`: the pattern comes back with its
leading whitespace stripped, so the result does not contain `" a"`. -/
theorem silentfile_roundtrip_counterexample :
    pyStrip " a" ≠ "" ∧ ¬ ':' ∈ (" a" : String).data ∧
    (SilentFile.add_to_file " a" 100 1000 none).error = none ∧
    (SilentFile.add_to_file " a" 100 1000 none).newFile = some " a:1100\n" ∧
    SilentFile.load (some " a:1100\n") 1000 = ["a"] ∧
    ¬ " a" ∈ SilentFile.load (some " a:1100\n") 1000 := by
  refine ⟨by decide, by decide, by decide, by decide, by decide, by decide⟩

/-- C2 (amended): for a valid pattern that moreover has no leading
whitespace and no newline or carriage-return characters (load returns
each stored pattern as the line-stripped prefix before the first `':'`,
so such characters do not round-trip), and whose written expiry
`now + d` is non-negative: after `add(p, d)` on an absent store, `load`
at any `t ≤ now + d` yields a sequence containing `p`, and `load` at any
`t > now + d` excludes it — an entry is active iff its expiry is `≥` the
load time. -/
theorem silentfile_roundtrip (p : String) (d now t : Int)
    (hval1 : pyStrip p ≠ "") (hval2 : ∀ a ∈ p.data, a ≠ ':')
    (hnl : ∀ a ∈ p.data, a ≠ '\n' ∧ a ≠ '\r')
    (hlead : ∀ c, p.data.head? = some c → pyIsSpace c = false)
    (hexp : 0 ≤ now + d) :
    (SilentFile.add_to_file p d now none).error = none ∧
    (t ≤ now + d →
      p ∈ SilentFile.load (SilentFile.add_to_file p d now none).newFile t) ∧
    (now + d < t →
      ¬ p ∈ SilentFile.load (SilentFile.add_to_file p d now none).newFile t) := by
  have hne : p.data ≠ [] := by
    intro h
    apply hval1
    show String.mk (stripChars p.data) = ""
    rw [h]
    rfl
  have hadd := add_to_file_ok_none p d now hval2 hval1
  have hload := load_single_entry p (now + d) t hne hval2
    (fun a ha => (hnl a ha).1) hlead hexp
  refine ⟨by rw [hadd], ?_, ?_⟩
  · intro ht
    rw [hadd]
    show p ∈ SilentFile.load (some (p ++ ":" ++ intToDecimal (now + d) ++ "\n")) t
    rw [hload, if_pos ht]
    exact List.mem_singleton.mpr rfl
  · intro ht
    rw [hadd]
    show ¬ p ∈ SilentFile.load (some (p ++ ":" ++ intToDecimal (now + d) ++ "\n")) t
    rw [hload, if_neg (by omega)]
    simp

/-- C2 witness: `add("foo*", 100)` at time 1000 then `load` at 1050
returns a sequence containing `"foo*"`. -/
theorem silentfile_roundtrip_witness :
    "foo*" ∈ SilentFile.load
      (SilentFile.add_to_file "foo*" 100 1000 none).newFile 1050 := by
  have h := silentfile_roundtrip "foo*" 100 1000 1050 (by decide) (by decide)
    (by decide) (by decide) (by decide)
  exact h.2.1 (by decide)

/-- C10: `add_to_file` raises exactly when the pattern contains `':'`
or strips to empty — the duration is never validated: any integer
duration, zero or negative included, succeeds and appends an entry with
expiry `now + duration`; with a negative duration the entry is born
expired, and a `load` of the resulting store at any time `t ≥ now`
yields nothing at all. -/
theorem add_duration_never_validated (p : String) (d now t : Int)
    (file : Option String) :
    ((SilentFile.add_to_file p d now file).error.isSome = true ↔
      (':' ∈ p.data ∨ pyStrip p = "")) ∧
    ((∀ a ∈ p.data, a ≠ ':') → pyStrip p ≠ "" →
      (SilentFile.add_to_file p d now file).newFile =
        some ((file.getD "") ++ p ++ ":" ++ intToDecimal (now + d) ++ "\n") ∧
      (d < 0 → now ≤ t →
        SilentFile.load (SilentFile.add_to_file p d now none).newFile t = [])) := by
  constructor
  · unfold SilentFile.add_to_file
    by_cases hc : p.data.any (fun a => a = ':') = true
    · rw [if_pos hc]
      have hcm : ':' ∈ p.data := by
        rw [List.any_eq_true] at hc
        obtain ⟨x, hx, hxe⟩ := hc
        rw [decide_eq_true_eq] at hxe
        rw [← hxe]; exact hx
      exact ⟨fun _ => Or.inl hcm, fun _ => rfl⟩
    · rw [if_neg hc]
      have hnc : ¬ ':' ∈ p.data := by
        intro hm
        exact hc (by rw [List.any_eq_true]; exact ⟨':', hm, by simp⟩)
      by_cases hs : pyStrip p = ""
      · rw [if_pos hs]
        exact ⟨fun _ => Or.inr hs, fun _ => rfl⟩
      · rw [if_neg hs]
        constructor
        · intro h; cases h
        · rintro (h | h)
          · exact absurd h hnc
          · exact absurd h hs
  · intro hval2 hval1
    constructor
    · rw [add_to_file_ok p d now file hval2 hval1]
    · intro hd hnow
      rw [add_to_file_ok_none p d now hval2 hval1]
      show SilentFile.load (some (p ++ ":" ++ intToDecimal (now + d) ++ "\n")) t = []
      exact load_entry_expired p (now + d) t hval2 (by omega)

/-- C10 witness: a negative duration is accepted, and the resulting
store loads as empty from the moment the entry was added. -/
theorem add_duration_never_validated_witness :
    SilentFile.load (SilentFile.add_to_file "task" (-5) 1000 none).newFile 1000 = [] := by
  have h := add_duration_never_validated "task" (-5) 1000 1000 none
  exact ((h.2 (by decide) (by decide)).2 (by decide) (by decide))

theorem runArgs_eq (first_line dflt path : String) :
    Script.runArgs first_line dflt path =
      (shlexSplit ((Script.detect_shebang first_line).getD dflt)).map
        (fun toks => toks ++ [path]) := by
  unfold Script.runArgs
  cases shlexSplit ((Script.detect_shebang first_line).getD dflt) <;> rfl

/-- C8: interpreter resolution: without a `#!` shebang the default
interpreter is tokenized; with one, the marker is dropped, the line
stripped, a leading `/usr/bin/env ` removed, and the remainder — if it
does not strip to empty, else the default — is tokenized under shell
quoting rules; the child argument vector is exactly the interpreter
tokens followed by the script path. -/
theorem run_interpreter_resolution (first_line dflt path : String) :
    (pyStartsWith first_line "#!" = false →
      Script.runArgs first_line dflt path =
        (shlexSplit dflt).map (fun toks => toks ++ [path])) ∧
    (pyStartsWith first_line "#!" = true →
      ∀ raw, ((if pyStartsWith (pyStrip (pyDrop first_line 2)) envMarker
            then pyDrop (pyStrip (pyDrop first_line 2)) envMarker.data.length
            else pyStrip (pyDrop first_line 2)) = raw) →
        (pyStrip raw ≠ "" →
          Script.runArgs first_line dflt path =
            (shlexSplit raw).map (fun toks => toks ++ [path])) ∧
        (pyStrip raw = "" →
          Script.runArgs first_line dflt path =
            (shlexSplit dflt).map (fun toks => toks ++ [path]))) ∧
    shlexSplit "/usr/bin/python3 -u" = some ["/usr/bin/python3", "-u"] ∧
    shlexSplit "bash -c 'a b'" = some ["bash", "-c", "a b"] := by
  refine ⟨?_, ?_, by decide, by decide⟩
  · intro hns
    rw [runArgs_eq]
    simp only [Script.detect_shebang]
    rw [if_neg (by rw [hns]; exact fun h => nomatch h)]
    rfl
  · intro hs raw hraw
    constructor
    · intro hne
      rw [runArgs_eq]
      simp only [Script.detect_shebang]
      rw [if_pos (by rw [hs]), hraw, if_pos hne]
      rfl
    · intro he
      rw [runArgs_eq]
      simp only [Script.detect_shebang]
      rw [if_pos (by rw [hs]), hraw, if_neg (fun h => h he)]
      rfl

/-- C8 witness: a `#!/bin/bash -e` shebang runs
`["/bin/bash", "-e", script]`. -/
theorem run_interpreter_resolution_witness :
    Script.runArgs "#!/bin/bash -e\n" "bash" "/x/s.sh"
      = some ["/bin/bash", "-e", "/x/s.sh"] := by
  have h := ((run_interpreter_resolution "#!/bin/bash -e\n" "bash" "/x/s.sh").2.1
    (by decide) "/bin/bash -e" (by decide)).1 (by decide)
  rw [h]
  decide

end ReminderSink
